import Mathlib

/-!
Verification of the sliding-windows iterator adaptor.

The development shallowly embeds `src/sliding_windows.rs`:

* `Storage` models the Rust `Storage<T>` struct (window size, circular
  offset of the logically-first element, the `uniquely_owned` refcount
  flag, and the backing `Vec<T>` as a `List`).
* Operations that `assert!` in Rust (or index out of bounds, which
  panics) are modelled as `Option`-returning functions, `none` meaning
  the Rust code panics.
* `Window`, `WindowIter` and `WindowIterMut` model the view type and its
  two iterators; the mutable iterator yields the physical index that the
  returned `&mut T` points at.
* `Adaptor` models the iterator adaptor; its inner iterator is a `List`
  of the not-yet-pulled elements.
-/

namespace SlidingW

/-- Model of `Storage<T>` from `src/sliding_windows.rs`. -/
structure Storage (α : Type) where
  window_size : Nat
  window_offset : Nat
  uniquely_owned : Bool
  data : List α
deriving Repr, DecidableEq

/-- `Storage::new(window_size)`: empty backing vec, offset 0, owned. -/
def Storage.new (α : Type) (window_size : Nat) : Storage α :=
  ⟨window_size, 0, true, []⟩

/-- `Storage::from_vec(vec, window_size)`: reuses the given vec as is. -/
def Storage.from_vec (vec : List α) (window_size : Nat) : Storage α :=
  ⟨window_size, 0, true, vec⟩

/-- `Storage::push`.  `none` models a panic: either the reentrancy
`assert!` fires, or the write `data[window_offset] = elt` indexes out of
bounds.  On success returns the new storage and the `bool` the Rust
function returns (`true` iff the window is full after the push). -/
def Storage.push (st : Storage α) (elt : α) : Option (Storage α × Bool) :=
  if st.uniquely_owned then
    if st.data.length < st.window_size then
      some ({st with data := st.data ++ [elt]},
            (st.data.length + 1) == st.window_size)
    else
      if st.data.length ≤ st.window_offset then none
      else
        some ({st with
                data := st.data.set st.window_offset elt,
                window_offset :=
                  if st.window_size - 1 ≤ st.window_offset then 0
                  else st.window_offset + 1},
              true)
  else none

/-- Model of `Window<'a, T>`: the offset of the logically-first element
and the slice `&mut data[..]` it aliases. -/
structure Window (α : Type) where
  window_offset : Nat
  data : List α
deriving Repr, DecidableEq

/-- `Storage::new_window`: asserts the flag, clears it (the refcount),
and hands out a window over the whole backing data. -/
def Storage.new_window (st : Storage α) : Option (Storage α × Window α) :=
  if st.uniquely_owned then
    some ({st with uniquely_owned := false}, ⟨st.window_offset, st.data⟩)
  else none

/-- `Storage::clear`: asserts the flag and empties the backing vec.
Note: the source does NOT reset `window_offset`. -/
def Storage.clear (st : Storage α) : Option (Storage α) :=
  if st.uniquely_owned then some {st with data := []} else none

/-- `impl Into<Vec<T>> for Storage<T>`: asserts the flag and returns the
backing vec. -/
def Storage.intoVec (st : Storage α) : Option (List α) :=
  if st.uniquely_owned then some st.data else none

/-- `impl Drop for Window`: sets the storage's flag back to `true`.
This is the release of the window's exclusive claim. -/
def Storage.release (st : Storage α) : Storage α :=
  {st with uniquely_owned := true}

/-- Model of `WindowIter<'a, T>`. -/
structure WindowIter (α : Type) where
  data : List α
  current_index : Nat
  iteration_num : Nat
deriving Repr, DecidableEq

/-- `Window::iter`: a fresh traversal starting at the window offset. -/
def Window.iter (w : Window α) : WindowIter α :=
  ⟨w.data, w.window_offset, 0⟩

/-- `<WindowIter as Iterator>::next`.  The Rust body first evaluates
`&self.data[self.current_index]` (a panic when out of bounds, modelled
by the outer `none`), then checks for the end of the traversal (inner
`none`), else yields the element and advances with wrap-around. -/
def WindowIter.next (it : WindowIter α) : Option (Option α × WindowIter α) :=
  match it.data[it.current_index]? with
  | none => none
  | some x =>
    if it.data.length ≤ it.iteration_num then some (none, it)
    else
      some (some x,
        ⟨it.data,
         if it.data.length - 1 ≤ it.current_index then 0
         else it.current_index + 1,
         it.iteration_num + 1⟩)

/-- Drive a `WindowIter` to exhaustion, collecting the yielded elements;
`fuel` bounds the number of `next` calls.  `none` models a panic inside
`next`. -/
def collectAux : Nat → WindowIter α → Option (List α)
  | 0, _ => none
  | fuel + 1, it =>
    match it.next with
    | none => none
    | some (none, _) => some []
    | some (some x, it') => (collectAux fuel it').map (fun l => x :: l)

/-- All elements of a window, read through `Window::iter` in logical
order. -/
def windowCollect (w : Window α) : Option (List α) :=
  collectAux (w.data.length + 1) w.iter

/-- Model of `WindowIterMut<'a, T>`: `data` is the buffer the raw
pointer points into, `data_len` is its length. -/
structure WindowIterMut (α : Type) where
  data : List α
  current_index : Nat
  iteration_num : Nat
deriving Repr, DecidableEq

/-- `Window::iter_mut`. -/
def Window.iter_mut (w : Window α) : WindowIterMut α :=
  ⟨w.data, w.window_offset, 0⟩

/-- `<WindowIterMut as Iterator>::next`.  The yielded `&mut T` is
modelled by the physical index it points at; dereferencing the raw
pointer out of bounds is the outer `none`. -/
def WindowIterMut.next (it : WindowIterMut α) : Option (Option Nat × WindowIterMut α) :=
  if it.data.length ≤ it.current_index then none
  else
    if it.data.length ≤ it.iteration_num then some (none, it)
    else
      some (some it.current_index,
        ⟨it.data,
         if it.data.length - 1 ≤ it.current_index then 0
         else it.current_index + 1,
         it.iteration_num + 1⟩)

/-- The physical index of the `j`-th element yielded by a
`WindowIterMut` (0-indexed). -/
def WindowIterMut.nthIndex (it : WindowIterMut α) : Nat → Option Nat
  | 0 =>
    match it.next with
    | some (some k, _) => some k
    | _ => none
  | j + 1 =>
    match it.next with
    | some (some _, it') => it'.nthIndex j
    | _ => none

/-- Writing `v` through the `j`-th element of `window.iter_mut()` for a
window freshly minted from `st` and then dropping the window: the write
lands in the shared backing storage at the physical index the mutable
iterator yields. -/
def Storage.writeThrough (st : Storage α) (j : Nat) (v : α) : Option (Storage α) :=
  match st.new_window with
  | none => none
  | some (st1, w) =>
    match w.iter_mut.nthIndex j with
    | none => none
    | some k => some (Storage.release {st1 with data := st1.data.set k v})

/-- Model of `Adaptor<'a, I>`: the not-yet-pulled suffix of the inner
iterator, the `done` flag, and the storage. -/
structure Adaptor (α : Type) where
  iter : List α
  done : Bool
  storage : Storage α
deriving Repr, DecidableEq

/-- `Adaptor::new`: clears the storage (which asserts the flag). -/
def Adaptor.new (iter : List α) (st : Storage α) : Option (Adaptor α) :=
  (st.clear).map fun st' => ⟨iter, false, st'⟩

/-- The `for elt in &mut self.iter { ... }` loop of `Adaptor::next`:
pushes pulled elements until a push reports the window full (`break`)
or the inner iterator is exhausted.  Returns the storage and the
remaining input. -/
def pushLoop (st : Storage α) : List α → Option (Storage α × List α)
  | [] => some (st, [])
  | e :: es =>
    match st.push e with
    | none => none
    | some (st', full) => if full then some (st', es) else pushLoop st' es

/-- `<Adaptor as Iterator>::next`.  The Rust body sets `done = true`
before the loop and back to `false` on every pulled element, so after
the loop `done` is `true` exactly when the input list was empty; a
window (possibly shorter than `window_size`) is minted whenever at
least one element was pulled. -/
def Adaptor.next (a : Adaptor α) : Option (Option (Window α) × Adaptor α) :=
  if a.done || a.storage.window_size == 0 then some (none, a)
  else
    match pushLoop a.storage a.iter with
    | none => none
    | some (st', rest) =>
      match a.iter with
      | [] => some (none, ⟨rest, true, st'⟩)
      | _ :: _ =>
        match st'.new_window with
        | none => none
        | some (st'', w) => some (some w, ⟨rest, false, st''⟩)

/-- `<Adaptor as Iterator>::size_hint`, as a function of the window
size and the inner iterator's reported `(lower, upper)` hint. -/
def size_hint (s lo : Nat) (hi : Option Nat) : Nat × Option Nat :=
  if s = 0 then (0, none)
  else
    (if lo = 0 then 0 else if s ≤ lo then lo - s + 1 else 1,
     hi.map fun x => if x = 0 then 0 else if s ≤ x then x - s + 1 else 1)

/-- Drive the adaptor to exhaustion.  Each yielded window is read in
logical order through `Window::iter` at the time it is produced, then
dropped (releasing the storage) before the next call.  Returns the list
of window contents and the final adaptor.  `none` models a panic (or
fuel exhaustion, which never occurs with fuel `> ` number of yields). -/
def Adaptor.run : Nat → Adaptor α → Option (List (List α) × Adaptor α)
  | 0, _ => none
  | fuel + 1, a =>
    match a.next with
    | none => none
    | some (none, a') => some ([], a')
    | some (some w, a') =>
      match windowCollect w with
      | none => none
      | some content =>
        match Adaptor.run fuel ⟨a'.iter, a'.done, a'.storage.release⟩ with
        | none => none
        | some (ws, af) => some (content :: ws, af)

/-- The whole pipeline: `input.iter().sliding_windows(&mut Storage::new(s))`
iterated to exhaustion, with each window read at production time. -/
def slidingRun (input : List α) (s : Nat) : Option (List (List α)) :=
  match Adaptor.new input (Storage.new α s) with
  | none => none
  | some a => (Adaptor.run (input.length + 1) a).map Prod.fst

/-- Two consecutive adaptors over the same storage: run the first to
exhaustion, then build a second adaptor on the (reused) storage and run
it; returns the second run's window contents. -/
def reuseRun (input1 input2 : List α) (s : Nat) : Option (List (List α)) :=
  match Adaptor.new input1 (Storage.new α s) with
  | none => none
  | some a1 =>
    match Adaptor.run (input1.length + 1) a1 with
    | none => none
    | some (_, af) =>
      match Adaptor.new input2 af.storage with
      | none => none
      | some a2 => (Adaptor.run (input2.length + 1) a2).map Prod.fst

/-- The logical content of the storage: the backing data read starting
at `window_offset` with wrap-around. -/
def Storage.logical (st : Storage α) : List α :=
  st.data.drop st.window_offset ++ st.data.take st.window_offset

/-- A sequence of further pushes (the adaptor keeps feeding elements on
later `next` calls; the yielded window itself is dropped in between). -/
def Storage.pushSeq (st : Storage α) : List α → Option (Storage α)
  | [] => some st
  | e :: es =>
    match st.push e with
    | none => none
    | some (st', _) => st'.pushSeq es

/-- The size-hint transformation exactly as the specification words it
(spec-side definition, to be compared with `size_hint` from the
source). -/
def sizeHintSpec (s lo : Nat) (hi : Option Nat) : Nat × Option Nat :=
  if s = 0 then (0, none)
  else
    (if lo = 0 then 0 else if lo ≥ s then lo - s + 1 else 1,
     match hi with
     | none => none
     | some h => some (if h = 0 then 0 else if h ≥ s then h - s + 1 else 1))

/-- Operations a client can perform on a storage and its windows; used
to state the outstanding-view invariant over arbitrary usage traces. -/
inductive Op (α : Type) where
  | push (e : α)
  | clear
  | mint
  | release
deriving Repr

/-- A storage together with the number of currently live windows into
it. -/
structure Sys (α : Type) where
  storage : Storage α
  live : Nat
deriving Repr, DecidableEq

/-- One client operation: `push`/`clear` go through the storage's
checked operations; `mint` is `Storage::new_window`; `release` is the
`Drop` impl of a live window (possible only when one is live). -/
def stepOp (s : Sys α) : Op α → Option (Sys α)
  | .push e => (s.storage.push e).map fun p => ⟨p.1, s.live⟩
  | .clear => (s.storage.clear).map fun st' => ⟨st', s.live⟩
  | .mint => (s.storage.new_window).map fun p => ⟨p.1, s.live + 1⟩
  | .release =>
    if s.live = 0 then none else some ⟨s.storage.release, s.live - 1⟩

/-- Run a list of client operations. -/
def runOps (s : Sys α) : List (Op α) → Option (Sys α)
  | [] => some s
  | op :: ops => (stepOp s op).bind fun s' => runOps s' ops

section Proofs

variable {α : Type}

theorem push_owned {st : Storage α} {e : α} {p : Storage α × Bool}
    (h : st.push e = some p) :
    st.uniquely_owned = true ∧ p.1.uniquely_owned = true ∧
      p.1.window_size = st.window_size ∧
      p.1.window_offset < max st.window_size (st.window_offset + 1) := by
  unfold Storage.push at h
  by_cases ho : st.uniquely_owned = true
  · rw [if_pos ho] at h
    split at h
    · cases h
      exact ⟨ho, ho, rfl, by simp⟩
    · split at h
      · cases h
      · cases h
        refine ⟨ho, ho, rfl, ?_⟩
        show (if st.window_size - 1 ≤ st.window_offset then 0
              else st.window_offset + 1) < _
        split <;> omega
  · rw [if_neg ho] at h
    cases h

theorem clear_owned {st : Storage α} {st' : Storage α}
    (h : st.clear = some st') :
    st.uniquely_owned = true ∧ st'.uniquely_owned = true := by
  unfold Storage.clear at h
  by_cases ho : st.uniquely_owned = true
  · rw [if_pos ho] at h; cases h; exact ⟨ho, ho⟩
  · rw [if_neg ho] at h; cases h

theorem new_window_owned {st : Storage α} {p : Storage α × Window α}
    (h : st.new_window = some p) :
    st.uniquely_owned = true ∧ p.1.uniquely_owned = false := by
  unfold Storage.new_window at h
  by_cases ho : st.uniquely_owned = true
  · rw [if_pos ho] at h; cases h; exact ⟨ho, rfl⟩
  · rw [if_neg ho] at h; cases h

/-- C4.  The `size_hint` computed by the adaptor coincides, for every
window size `s` and every inner hint `(lo, hi)`, with the closed-form
transformation the specification states: `(0, none)` for `s = 0`, and
otherwise lower `0 / lo - s + 1 / 1` and upper
`none / 0 / hi - s + 1 / 1` by the stated case split. -/
theorem claim_C4 : ∀ (s lo : Nat) (hi : Option Nat),
    size_hint s lo hi = sizeHintSpec s lo hi := by
  intro s lo hi
  unfold size_hint sizeHintSpec
  cases hi <;> rfl

/-- C5.  While a window is outstanding (`uniquely_owned = false`) every
buffer-mutating operation — `push`, minting a new window, `clear`, and
consuming the storage into its backing vec — fails (the Rust `assert!`
panics); after the window is released (its `Drop` sets the flag back)
each of them succeeds.  The well-formedness side condition merely rules
out the degenerate storage whose stale offset would make the in-bounds
write `data[window_offset] = elt` itself panic. -/
theorem claim_C5 (st : Storage α) (e : α)
    (h : st.uniquely_owned = false)
    (hwf : st.data.length < st.window_size ∨ st.window_offset < st.data.length) :
    st.push e = none ∧ st.new_window = none ∧ st.clear = none ∧
      st.intoVec = none ∧
      (st.release.push e).isSome ∧ (st.release.new_window).isSome ∧
      (st.release.clear).isSome ∧ (st.release.intoVec).isSome := by
  refine ⟨?_, ?_, ?_, ?_, ?_, ?_, ?_, ?_⟩
  · unfold Storage.push; rw [h]; rfl
  · unfold Storage.new_window; rw [h]; rfl
  · unfold Storage.clear; rw [h]; rfl
  · unfold Storage.intoVec; rw [h]; rfl
  · unfold Storage.push Storage.release
    simp only [if_true]
    rcases hwf with hlt | hidx
    · rw [if_pos hlt]; rfl
    · by_cases hlt : st.data.length < st.window_size
      · rw [if_pos hlt]; rfl
      · rw [if_neg hlt, if_neg (by omega)]; rfl
  · unfold Storage.new_window Storage.release; rfl
  · unfold Storage.clear Storage.release; rfl
  · unfold Storage.intoVec Storage.release; rfl

theorem claim_C5_witness :
    ((⟨3, 0, false, [1, 2]⟩ : Storage Nat).uniquely_owned = false) ∧
      ((2 : Nat) < 3 ∨ (0 : Nat) < 2) ∧
      ((⟨3, 0, false, [1, 2]⟩ : Storage Nat).push 7 = none ∧
        (⟨3, 0, false, [1, 2]⟩ : Storage Nat).new_window = none ∧
        (⟨3, 0, false, [1, 2]⟩ : Storage Nat).clear = none ∧
        (⟨3, 0, false, [1, 2]⟩ : Storage Nat).intoVec = none ∧
        ((⟨3, 0, false, [1, 2]⟩ : Storage Nat).release.push 7).isSome ∧
        ((⟨3, 0, false, [1, 2]⟩ : Storage Nat).release.new_window).isSome ∧
        ((⟨3, 0, false, [1, 2]⟩ : Storage Nat).release.clear).isSome ∧
        ((⟨3, 0, false, [1, 2]⟩ : Storage Nat).release.intoVec).isSome) :=
  ⟨rfl, Or.inl (by decide), claim_C5 _ 7 rfl (Or.inl (by decide))⟩

/-- C6.  The outstanding-view flag tracks window liveness exactly:
starting from any state where `uniquely_owned` is the negation of "a
window is live" and at most one window is live, every sequence of
successful client operations (pushes, clears, mints, releases — a
release being the window's `Drop`, which is what sets the flag back)
preserves it: at the end `uniquely_owned = true` iff no window is live,
and at most one window is ever live. -/
theorem claim_C6 (ops : List (Op α)) (s0 sf : Sys α)
    (h0 : (s0.storage.uniquely_owned = true ↔ s0.live = 0) ∧ s0.live ≤ 1)
    (hrun : runOps s0 ops = some sf) :
    (sf.storage.uniquely_owned = true ↔ sf.live = 0) ∧ sf.live ≤ 1 := by
  induction ops generalizing s0 with
  | nil =>
    unfold runOps at hrun
    cases hrun
    exact h0
  | cons op ops ih =>
    unfold runOps at hrun
    rcases hstep : stepOp s0 op with _ | s1
    · rw [hstep] at hrun; cases hrun
    · rw [hstep] at hrun
      refine ih s1 ?_ hrun
      rcases op with e | _ | _ | _
      · simp only [stepOp] at hstep
        rcases hp : s0.storage.push e with _ | p
        · rw [hp] at hstep; cases hstep
        · rw [hp, Option.map_some'] at hstep
          cases hstep
          obtain ⟨ho, ho', -, -⟩ := push_owned hp
          exact ⟨⟨fun _ => h0.1.mp ho, fun _ => ho'⟩, h0.2⟩
      · simp only [stepOp] at hstep
        rcases hp : s0.storage.clear with _ | st'
        · rw [hp] at hstep; cases hstep
        · rw [hp, Option.map_some'] at hstep
          cases hstep
          obtain ⟨ho, ho'⟩ := clear_owned hp
          exact ⟨⟨fun _ => h0.1.mp ho, fun _ => ho'⟩, h0.2⟩
      · simp only [stepOp] at hstep
        rcases hp : s0.storage.new_window with _ | p
        · rw [hp] at hstep; cases hstep
        · rw [hp, Option.map_some'] at hstep
          cases hstep
          obtain ⟨ho, ho'⟩ := new_window_owned hp
          have hz := h0.1.mp ho
          constructor
          · constructor
            · intro hh; rw [ho'] at hh; cases hh
            · intro hh
              exact absurd (show s0.live + 1 = 0 from hh) (by omega)
          · show s0.live + 1 ≤ 1
            omega
      · simp only [stepOp] at hstep
        by_cases hz : s0.live = 0
        · rw [if_pos hz] at hstep; cases hstep
        · rw [if_neg hz] at hstep
          cases hstep
          have h1 : s0.live = 1 := by omega
          exact ⟨⟨fun _ => show s0.live - 1 = 0 by omega, fun _ => rfl⟩,
            show s0.live - 1 ≤ 1 by omega⟩

theorem claim_C6_witness :
    (((⟨Storage.new Nat 2, 0⟩ : Sys Nat).storage.uniquely_owned = true ↔
        (⟨Storage.new Nat 2, 0⟩ : Sys Nat).live = 0) ∧
      (⟨Storage.new Nat 2, 0⟩ : Sys Nat).live ≤ 1) ∧
    (runOps (⟨Storage.new Nat 2, 0⟩ : Sys Nat)
        [Op.push 5, Op.mint, Op.release, Op.clear, Op.mint] =
      some ⟨⟨2, 0, false, []⟩, 1⟩) ∧
    ((((⟨⟨2, 0, false, []⟩, 1⟩ : Sys Nat)).storage.uniquely_owned = true ↔
        ((⟨⟨2, 0, false, []⟩, 1⟩ : Sys Nat)).live = 0) ∧
      ((⟨⟨2, 0, false, []⟩, 1⟩ : Sys Nat)).live ≤ 1) :=
  ⟨by decide, by decide,
    claim_C6 [Op.push 5, Op.mint, Op.release, Op.clear, Op.mint]
      ⟨Storage.new Nat 2, 0⟩ ⟨⟨2, 0, false, []⟩, 1⟩ (by decide) (by decide)⟩

/-- C9.  The adaptor is fused: whenever a call to `Adaptor::next`
returns `None`, the resulting adaptor state returns `None` again with
unchanged state, so every subsequent call also returns `None`. -/
theorem claim_C9 (a a' : Adaptor α) (h : a.next = some (none, a')) :
    a'.next = some (none, a') := by
  unfold Adaptor.next at h
  by_cases hc : (a.done || a.storage.window_size == 0) = true
  · rw [if_pos hc] at h
    have ha : a = a' := congrArg Prod.snd (Option.some.inj h)
    subst ha
    unfold Adaptor.next
    rw [if_pos hc]
  · rw [if_neg hc] at h
    split at h
    · cases h
    · split at h
      · have ha : a' = ⟨_, true, _⟩ :=
          (congrArg Prod.snd (Option.some.inj h)).symm
        subst ha
        unfold Adaptor.next
        rfl
      · split at h
        · cases h
        · have := congrArg Prod.fst (Option.some.inj h)
          simp at this

theorem windowIter_next_end (it : WindowIter α)
    (h1 : it.data.length ≤ it.iteration_num)
    (h2 : it.current_index < it.data.length) :
    it.next = some (none, it) := by
  unfold WindowIter.next
  simp only [List.getElem?_eq_getElem h2]
  rw [if_pos h1]

theorem rot_take_succ (data : List α) (ci m : Nat) (hci : ci < data.length)
    (hm : m + 1 ≤ data.length) :
    (data.drop ci ++ data.take ci).take (m+1) =
      data[ci] ::
        ((data.drop (if data.length - 1 ≤ ci then 0 else ci + 1) ++
          data.take (if data.length - 1 ≤ ci then 0 else ci + 1)).take m) := by
  by_cases hw : data.length - 1 ≤ ci
  · rw [if_pos hw]
    have h1 : data.drop ci = [data[ci]] := by
      rw [List.drop_eq_getElem_cons hci]
      have h2 : ci + 1 = data.length := by omega
      rw [h2, List.drop_length]
    rw [h1]
    simp only [List.drop_zero, List.take_zero, List.append_nil,
      List.cons_append, List.nil_append, List.take_succ_cons]
    rw [List.take_take, Nat.min_eq_left (by omega)]
  · rw [if_neg hw]
    rw [List.drop_eq_getElem_cons hci, List.cons_append, List.take_succ_cons]
    congr 1
    rw [List.take_append_eq_append_take, List.take_append_eq_append_take,
      List.take_take, List.take_take, List.length_drop]
    rw [Nat.min_eq_left (by omega), Nat.min_eq_left (by omega)]

theorem collectAux_spec : ∀ (m : Nat) (data : List α) (ci k : Nat),
    k + m = data.length → ci < data.length →
    collectAux (m+1) ⟨data, ci, k⟩ =
      some ((data.drop ci ++ data.take ci).take m) := by
  intro m
  induction m with
  | zero =>
    intro data ci k hk hci
    have hnext : (⟨data, ci, k⟩ : WindowIter α).next = some (none, ⟨data, ci, k⟩) :=
      windowIter_next_end _ (show data.length ≤ k by omega)
        (show ci < data.length from hci)
    simp only [collectAux]
    rw [hnext]
    rfl
  | succ m ih =>
    intro data ci k hk hci
    have hnext : (⟨data, ci, k⟩ : WindowIter α).next =
        some (some data[ci],
          ⟨data, if data.length - 1 ≤ ci then 0 else ci + 1, k + 1⟩) := by
      unfold WindowIter.next
      simp only [List.getElem?_eq_getElem hci]
      rw [if_neg (by show ¬ (data.length ≤ k); omega)]
    have hci' : (if data.length - 1 ≤ ci then 0 else ci + 1) < data.length := by
      split <;> omega
    have step : collectAux (m+1+1) (⟨data, ci, k⟩ : WindowIter α) =
        (collectAux (m+1)
            ⟨data, if data.length - 1 ≤ ci then 0 else ci + 1, k+1⟩).map
          (fun l => data[ci] :: l) := by
      conv_lhs => rw [collectAux]
      rw [hnext]
    rw [step, ih data _ (k+1) (by omega) hci', Option.map_some',
      rot_take_succ data ci m hci (by omega)]

theorem windowCollect_eq (data : List α) (off : Nat) (h : off < data.length) :
    windowCollect ⟨off, data⟩ = some (data.drop off ++ data.take off) := by
  show collectAux (data.length + 1) ⟨data, off, 0⟩ = _
  rw [collectAux_spec data.length data off 0 (by omega) h]
  congr 1
  have hlen : (data.drop off ++ data.take off).length = data.length := by
    simp only [List.length_append, List.length_drop, List.length_take]
    omega
  rw [← hlen, List.take_length]

theorem logical_getElem? (data : List α) (off i : Nat) (hoff : off < data.length)
    (hi : i < data.length) :
    (data.drop off ++ data.take off)[i]? = data[(off + i) % data.length]? := by
  by_cases h1 : i < data.length - off
  · rw [List.getElem?_append, if_pos (by rw [List.length_drop]; omega),
      List.getElem?_drop, Nat.mod_eq_of_lt (by omega)]
  · rw [List.getElem?_append, if_neg (by rw [List.length_drop]; omega)]
    simp only [List.length_drop]
    rw [List.getElem?_take, if_pos (by omega)]
    have h3 : (off + i) % data.length = i - (data.length - off) := by
      rw [Nat.mod_eq_sub_mod (by omega), Nat.mod_eq_of_lt (by omega)]
      omega
    rw [h3]

/-- C7.  For a window over data of length `L` with logical start `off`
(in bounds, as for every window the adaptor mints in normal operation),
`Window::iter` traverses exactly `L` elements, the `i`-th being the
element at physical slot `(off + i) % L` (wrap-around), and once
exhausted the iterator answers `None` for ever (its state no longer
changes).  Each call to `iter()` builds this traversal afresh from
logical position `0`. -/
theorem claim_C7 (data : List α) (off : Nat) (h : off < data.length) :
    ∃ l, windowCollect ⟨off, data⟩ = some l ∧
      l.length = data.length ∧
      (∀ i, i < data.length → l[i]? = data[(off + i) % data.length]?) ∧
      (∀ it : WindowIter α, it.data.length ≤ it.iteration_num →
        it.current_index < it.data.length → it.next = some (none, it)) := by
  refine ⟨data.drop off ++ data.take off, windowCollect_eq data off h, ?_, ?_, ?_⟩
  · simp only [List.length_append, List.length_drop, List.length_take]
    omega
  · intro i hi
    exact logical_getElem? data off i h hi
  · intro it h1 h2
    exact windowIter_next_end it h1 h2

theorem claim_C7_witness :
    (1 < ([10, 20, 30] : List Nat).length) ∧
      (∃ l, windowCollect (⟨1, [10, 20, 30]⟩ : Window Nat) = some l ∧
        l.length = ([10, 20, 30] : List Nat).length ∧
        (∀ i, i < ([10, 20, 30] : List Nat).length →
          l[i]? = ([10, 20, 30] : List Nat)[(1 + i) % ([10, 20, 30] : List Nat).length]?) ∧
        (∀ it : WindowIter Nat, it.data.length ≤ it.iteration_num →
          it.current_index < it.data.length → it.next = some (none, it))) :=
  ⟨by decide, claim_C7 [10, 20, 30] 1 (by decide)⟩

theorem push_filling (st : Storage α) (e : α) (ho : st.uniquely_owned = true)
    (hlt : st.data.length < st.window_size) :
    st.push e = some ({st with data := st.data ++ [e]},
      (st.data.length + 1) == st.window_size) := by
  unfold Storage.push
  rw [if_pos ho, if_pos hlt]

theorem push_full (st : Storage α) (e : α) (ho : st.uniquely_owned = true)
    (hfull : st.data.length = st.window_size)
    (hoff : st.window_offset < st.window_size) :
    st.push e = some ({st with
        data := st.data.set st.window_offset e,
        window_offset := if st.window_size - 1 ≤ st.window_offset then 0
          else st.window_offset + 1}, true) := by
  unfold Storage.push
  rw [if_pos ho, if_neg (by omega), if_neg (by omega)]

theorem length_logical (st : Storage α) : st.logical.length = st.data.length := by
  unfold Storage.logical
  simp only [List.length_append, List.length_drop, List.length_take]
  omega

theorem logical_push_full (st : Storage α) (e : α) (ho : st.uniquely_owned = true)
    (hfull : st.data.length = st.window_size)
    (hoff : st.window_offset < st.window_size) :
    ∃ st', st.push e = some (st', true) ∧
      st'.uniquely_owned = true ∧
      st'.window_size = st.window_size ∧
      st'.data.length = st.window_size ∧
      st'.window_offset < st.window_size ∧
      st'.logical = st.logical.drop 1 ++ [e] := by
  refine ⟨_, push_full st e ho hfull hoff, ho, rfl, ?_, ?_, ?_⟩
  · show (st.data.set st.window_offset e).length = st.window_size
    rw [List.length_set]
    exact hfull
  · show (if st.window_size - 1 ≤ st.window_offset then 0
      else st.window_offset + 1) < st.window_size
    split <;> omega
  · show (st.data.set st.window_offset e).drop
        (if st.window_size - 1 ≤ st.window_offset then 0 else st.window_offset + 1) ++
      (st.data.set st.window_offset e).take
        (if st.window_size - 1 ≤ st.window_offset then 0 else st.window_offset + 1) =
      (st.data.drop st.window_offset ++ st.data.take st.window_offset).drop 1 ++ [e]
    have hoffd : st.window_offset < st.data.length := by omega
    by_cases hw : st.window_size - 1 ≤ st.window_offset
    · rw [if_pos hw]
      simp only [List.drop_zero, List.take_zero, List.append_nil]
      have hdr : st.data.drop st.window_offset = [st.data[st.window_offset]] := by
        rw [List.drop_eq_getElem_cons hoffd,
          show st.window_offset + 1 = st.data.length by omega, List.drop_length]
      rw [List.set_eq_take_cons_drop e hoffd,
        show st.window_offset + 1 = st.data.length by omega, List.drop_length, hdr]
      simp
    · rw [if_neg hw]
      have hoff1 : st.window_offset + 1 < st.data.length := by omega
      rw [List.set_eq_take_cons_drop e hoffd]
      have hgr : st.data.take st.window_offset ++ e :: st.data.drop (st.window_offset + 1) =
          (st.data.take st.window_offset ++ [e]) ++ st.data.drop (st.window_offset + 1) := by
        simp
      have hlen1 : (st.data.take st.window_offset ++ [e]).length = st.window_offset + 1 := by
        simp only [List.length_append, List.length_take, List.length_cons,
          List.length_nil]
        omega
      rw [hgr, List.drop_left' hlen1, List.take_left' hlen1,
        List.drop_eq_getElem_cons hoffd, List.cons_append, List.drop_one,
        List.tail_cons, List.append_assoc]

theorem pushLoop_fill_enough : ∀ (xs : List α) (st : Storage α),
    st.uniquely_owned = true → st.data.length < st.window_size →
    st.window_size - st.data.length ≤ xs.length →
    pushLoop st xs =
      some ({st with data := st.data ++ xs.take (st.window_size - st.data.length)},
        xs.drop (st.window_size - st.data.length)) := by
  intro xs
  induction xs with
  | nil =>
    intro st ho hlt hle
    simp only [List.length_nil] at hle
    omega
  | cons e es ih =>
    intro st ho hlt hle
    simp only [List.length_cons] at hle
    unfold pushLoop
    rw [push_filling st e ho hlt]
    by_cases hfull2 : st.data.length + 1 = st.window_size
    · have hbeq : ((st.data.length + 1) == st.window_size) = true := by
        simp [hfull2]
      rw [show st.window_size - st.data.length = 1 by omega, hbeq]
      rfl
    · have hbeq : ((st.data.length + 1) == st.window_size) = false := by
        simp only [beq_eq_false_iff_ne, ne_eq]
        omega
      rw [hbeq]
      show pushLoop ({st with data := st.data ++ [e]}) es = _
      obtain ⟨n, hn⟩ : ∃ n, st.window_size - st.data.length = n + 2 :=
        ⟨st.window_size - st.data.length - 2, by omega⟩
      rw [ih ({st with data := st.data ++ [e]}) ho
        (by show (st.data ++ [e]).length < st.window_size; simp; omega)
        (by show st.window_size - (st.data ++ [e]).length ≤ es.length; simp; omega)]
      rw [show st.window_size - ({st with data := st.data ++ [e]} :
            Storage α).data.length = n + 1 by simp [hn]; omega]
      rw [hn]
      simp [List.append_assoc]

theorem pushLoop_fill_short : ∀ (xs : List α) (st : Storage α),
    st.uniquely_owned = true → st.data.length < st.window_size →
    xs.length < st.window_size - st.data.length →
    pushLoop st xs = some ({st with data := st.data ++ xs}, []) := by
  intro xs
  induction xs with
  | nil =>
    intro st ho hlt hlen
    simp [pushLoop]
  | cons e es ih =>
    intro st ho hlt hlen
    simp only [List.length_cons] at hlen
    unfold pushLoop
    rw [push_filling st e ho hlt]
    have hbeq : ((st.data.length + 1) == st.window_size) = false := by
      simp only [beq_eq_false_iff_ne, ne_eq]
      omega
    rw [hbeq]
    show pushLoop ({st with data := st.data ++ [e]}) es = _
    rw [ih ({st with data := st.data ++ [e]}) ho
      (by show (st.data ++ [e]).length < st.window_size; simp; omega)
      (by show es.length < st.window_size - (st.data ++ [e]).length; simp; omega)]
    simp [List.append_assoc]

theorem pushLoop_full_cons (st : Storage α) (e : α) (es : List α)
    (ho : st.uniquely_owned = true)
    (hfull : st.data.length = st.window_size)
    (hoff : st.window_offset < st.window_size) :
    ∃ st', pushLoop st (e :: es) = some (st', es) ∧
      st'.uniquely_owned = true ∧
      st'.window_size = st.window_size ∧
      st'.data.length = st.window_size ∧
      st'.window_offset < st.window_size ∧
      st'.logical = st.logical.drop 1 ++ [e] := by
  obtain ⟨st', hpush, ho', hws', hfull', hoff', hlog⟩ :=
    logical_push_full st e ho hfull hoff
  refine ⟨st', ?_, ho', hws', hfull', hoff', hlog⟩
  unfold pushLoop
  rw [hpush]
  rfl

theorem next_nil (st : Storage α) (hws : st.window_size ≠ 0) :
    (⟨[], false, st⟩ : Adaptor α).next = some (none, ⟨[], true, st⟩) := by
  simp only [Adaptor.next, Bool.false_or]
  rw [if_neg (by simpa using hws)]
  rfl

theorem next_cons (st st' : Storage α) (x : α) (xs rest : List α)
    (hws : st.window_size ≠ 0)
    (hpl : pushLoop st (x :: xs) = some (st', rest))
    (ho' : st'.uniquely_owned = true) :
    (⟨x :: xs, false, st⟩ : Adaptor α).next =
      some (some ⟨st'.window_offset, st'.data⟩,
        ⟨rest, false, {st' with uniquely_owned := false}⟩) := by
  simp only [Adaptor.next, Bool.false_or]
  rw [if_neg (by simpa using hws), hpl]
  show (match st'.new_window with
    | none => none
    | some (st'', w) =>
      some (some w, ⟨rest, false, st''⟩) :
        Option (Option (Window α) × Adaptor α)) = _
  unfold Storage.new_window
  rw [if_pos ho']

theorem run_succ_none (fuel : Nat) (a a' : Adaptor α)
    (hnext : a.next = some (none, a')) :
    Adaptor.run (fuel + 1) a = some ([], a') := by
  simp only [Adaptor.run, hnext]

theorem run_succ_some (fuel : Nat) (a : Adaptor α) (w : Window α)
    (content rest : List α) (d : Bool) (st2 : Storage α)
    (hnext : a.next = some (some w, ⟨rest, d, st2⟩))
    (hcol : windowCollect w = some content) :
    Adaptor.run (fuel + 1) a =
      (Adaptor.run fuel ⟨rest, d, st2.release⟩).map
        (fun p => (content :: p.1, p.2)) := by
  cases hrun : Adaptor.run fuel ⟨rest, d, st2.release⟩ with
  | none => simp only [Adaptor.run, hnext, hcol, hrun, Option.map_none']
  | some p => simp only [Adaptor.run, hnext, hcol, hrun, Option.map_some']

theorem head_window (L : List α) (e : α) (es : List α) (ws : Nat)
    (hL : L.length = ws) (hws : 1 ≤ ws) :
    ((L ++ e :: es).drop 1).take ws = L.drop 1 ++ [e] := by
  rcases L with _ | ⟨l0, L'⟩
  · simp only [List.length_nil] at hL
    omega
  · simp only [List.cons_append, List.drop_succ_cons, List.drop_zero]
    rw [List.take_append_eq_append_take]
    simp only [List.length_cons] at hL
    rw [List.take_of_length_le (by omega),
      show ws - L'.length = 1 by omega]
    rfl

theorem tail_window (L : List α) (e : α) (es : List α) (h : 1 ≤ L.length) :
    (L.drop 1 ++ [e]) ++ es = (L ++ e :: es).drop 1 := by
  rcases L with _ | ⟨l0, L'⟩
  · simp only [List.length_nil] at h
    omega
  · simp [List.append_assoc]

theorem run_from_full : ∀ (rest : List α) (fuel : Nat) (st : Storage α),
    rest.length + 1 ≤ fuel →
    st.uniquely_owned = true →
    st.data.length = st.window_size →
    st.window_offset < st.window_size →
    ∃ af, Adaptor.run fuel ⟨rest, false, st⟩ =
      some ((List.range rest.length).map
        (fun j => ((st.logical ++ rest).drop (j+1)).take st.window_size), af) := by
  intro rest
  induction rest with
  | nil =>
    intro fuel st hfuel ho hfull hoff
    obtain ⟨f, rfl⟩ : ∃ f, fuel = f + 1 := ⟨fuel - 1, by omega⟩
    refine ⟨⟨[], true, st⟩, ?_⟩
    rw [run_succ_none f _ _ (next_nil st (by omega))]
    rfl
  | cons e es ih =>
    intro fuel st hfuel ho hfull hoff
    obtain ⟨f, rfl⟩ : ∃ f, fuel = f + 1 := ⟨fuel - 1, by omega⟩
    simp only [List.length_cons] at hfuel
    obtain ⟨st', hpl, ho', hws', hfull', hoff', hlog⟩ :=
      pushLoop_full_cons st e es ho hfull hoff
    have hnext := next_cons st st' e es es (by omega) hpl ho'
    have hcol : windowCollect ⟨st'.window_offset, st'.data⟩ = some st'.logical :=
      windowCollect_eq st'.data st'.window_offset (by omega)
    rw [run_succ_some f _ _ _ es false ({st' with uniquely_owned := false})
      hnext hcol]
    have hrel : ({st' with uniquely_owned := false} : Storage α).release = st' := by
      show ({st' with uniquely_owned := true} : Storage α) = st'
      rw [← ho']
    rw [hrel]
    obtain ⟨af, hrec⟩ := ih f st' (by omega) ho' (by omega) (by omega)
    refine ⟨af, ?_⟩
    rw [hrec]
    simp only [Option.map_some']
    congr 1
    congr 1
    rw [hws', hlog]
    simp only [List.length_cons]
    rw [List.range_succ_eq_map, List.map_cons, List.map_map]
    have hLlen : st.logical.length = st.window_size := by
      rw [length_logical, hfull]
    congr 1
    · rw [head_window st.logical e es st.window_size hLlen (by omega)]
    · apply List.map_congr_left
      intro j hj
      simp only [Function.comp]
      rw [tail_window st.logical e es (by omega), List.drop_drop,
        show 1 + (j + 1) = j + 1 + 1 by omega]

/-- C1.  With a fresh backing storage, for every input of length `n`
and window size `s` with `1 ≤ s ≤ n`, driving the adaptor to
exhaustion yields exactly `n - s + 1` windows, the `i`-th (0-indexed,
read in logical order at production time, before any mutation) being
the input slice starting at `i` of length `s`. -/
theorem claim_C1 (input : List α) (s : Nat) (h1 : 1 ≤ s)
    (h2 : s ≤ input.length) :
    slidingRun input s =
      some ((List.range (input.length - s + 1)).map
        fun i => (input.drop i).take s) := by
  obtain ⟨x, xs, rfl⟩ : ∃ x xs, input = x :: xs := by
    cases input with
    | nil => simp only [List.length_nil] at h2; omega
    | cons a l => exact ⟨a, l, rfl⟩
  have hnew : Adaptor.new (x :: xs) (Storage.new α s) =
      some ⟨x :: xs, false, Storage.new α s⟩ := rfl
  unfold slidingRun
  rw [hnew]
  have hlen2 : s ≤ (x :: xs).length := h2
  simp only [List.length_cons] at hlen2
  have hfill := pushLoop_fill_enough (x :: xs) (Storage.new α s) rfl
    (show 0 < s by omega)
    (by show s - 0 ≤ (x :: xs).length; simp only [List.length_cons]; omega)
  rw [show (Storage.new α s).window_size - (Storage.new α s).data.length = s
    from rfl] at hfill
  rw [show ({Storage.new α s with data :=
      (Storage.new α s).data ++ (x :: xs).take s} : Storage α) =
    ⟨s, 0, true, (x :: xs).take s⟩ from by simp [Storage.new]] at hfill
  have htlen : ((x :: xs).take s).length = s := by
    rw [List.length_take]
    simp only [List.length_cons]
    omega
  have hnext := next_cons (Storage.new α s) ⟨s, 0, true, (x :: xs).take s⟩
    x xs ((x :: xs).drop s) (show s ≠ 0 by omega) hfill rfl
  have hcol : windowCollect ⟨0, (x :: xs).take s⟩ =
      some ((x :: xs).take s) := by
    have h := windowCollect_eq ((x :: xs).take s) 0 (by omega)
    simpa using h
  simp only [List.length_cons]
  rw [run_succ_some (xs.length + 1) _ _ _ ((x :: xs).drop s) false
    ({(⟨s, 0, true, (x :: xs).take s⟩ : Storage α) with
      uniquely_owned := false}) hnext hcol]
  have hrel2 : ({(⟨s, 0, true, (x :: xs).take s⟩ : Storage α) with
      uniquely_owned := false} : Storage α).release =
      ⟨s, 0, true, (x :: xs).take s⟩ := rfl
  rw [hrel2]
  have hdlen : ((x :: xs).drop s).length + 1 ≤ xs.length + 1 := by
    rw [List.length_drop]
    simp only [List.length_cons]
    omega
  obtain ⟨af, hrec⟩ := run_from_full ((x :: xs).drop s) (xs.length + 1)
    ⟨s, 0, true, (x :: xs).take s⟩ hdlen rfl (show ((x :: xs).take s).length = s from htlen)
    (show 0 < s by omega)
  rw [hrec, Option.map_some', Option.map_some']
  have hlogfresh : (⟨s, 0, true, (x :: xs).take s⟩ : Storage α).logical =
      (x :: xs).take s := by
    show ((x :: xs).take s).drop 0 ++ ((x :: xs).take s).take 0 = _
    simp
  congr 1
  show (x :: xs).take s :: _ = _
  rw [hlogfresh, List.take_append_drop]
  rw [show xs.length + 1 - s + 1 = ((x :: xs).drop s).length + 1 from by
    rw [List.length_drop]; simp only [List.length_cons]]
  rw [List.range_succ_eq_map, List.map_cons, List.map_map]
  congr 1

theorem claim_C1_witness :
    1 ≤ 3 ∧ 3 ≤ ([0, 1, 2, 3, 4] : List Nat).length ∧
      slidingRun ([0, 1, 2, 3, 4] : List Nat) 3 =
        some ((List.range (([0, 1, 2, 3, 4] : List Nat).length - 3 + 1)).map
          fun i => (([0, 1, 2, 3, 4] : List Nat).drop i).take 3) :=
  ⟨by decide, by decide, claim_C1 [0, 1, 2, 3, 4] 3 (by decide) (by decide)⟩

/-- C2 is false as stated: with window size 3 and input `[0, 1]` (so
`1 ≤ n < s`) the adaptor yields one (partial) window `[0, 1]`, not zero
windows — `Adaptor::next` resets `done` on every pulled element and
mints a window whenever at least one element was pulled, and the
`size_hint` unit test (input bound 5, window 6, expected `(1, some 1)`)
confirms this count. -/
theorem claim_C2_counterexample :
    slidingRun ([0, 1] : List Nat) 3 = some [[0, 1]] ∧
      slidingRun ([0, 1] : List Nat) 3 ≠ some [] := by
  decide

/-- C2 (amended).  For `s > n`: if the input is empty the adaptor
yields zero windows; if `1 ≤ n < s` it yields exactly one window
containing all `n` pulled elements (a partial window, shorter than
`s`); in both cases iteration then stays finished. -/
theorem claim_C2 (input : List α) (s : Nat) (h : input.length < s) :
    slidingRun input s = some (if input.isEmpty then [] else [input]) := by
  rcases input with _ | ⟨x, xs⟩
  · simp only [List.length_nil] at h
    have hnew : Adaptor.new ([] : List α) (Storage.new α s) =
        some ⟨[], false, Storage.new α s⟩ := rfl
    unfold slidingRun
    rw [hnew]
    simp only [List.length_nil]
    rw [run_succ_none 0 _ _ (next_nil (Storage.new α s) (show s ≠ 0 by omega))]
    rfl
  · simp only [List.length_cons] at h
    have hnew : Adaptor.new (x :: xs) (Storage.new α s) =
        some ⟨x :: xs, false, Storage.new α s⟩ := rfl
    unfold slidingRun
    rw [hnew]
    have hshort := pushLoop_fill_short (x :: xs) (Storage.new α s) rfl
      (show 0 < s by omega)
      (by show (x :: xs).length < s - 0; simp only [List.length_cons]; omega)
    rw [show ({Storage.new α s with data :=
        (Storage.new α s).data ++ (x :: xs)} : Storage α) =
      ⟨s, 0, true, x :: xs⟩ from by simp [Storage.new]] at hshort
    have hnext := next_cons (Storage.new α s) ⟨s, 0, true, x :: xs⟩ x xs []
      (show s ≠ 0 by omega) hshort rfl
    have hcol : windowCollect ⟨0, x :: xs⟩ = some (x :: xs) := by
      have hcc := windowCollect_eq (x :: xs) 0 (by simp)
      simpa using hcc
    simp only [List.length_cons]
    rw [run_succ_some (xs.length + 1) _ _ _ [] false
      ({(⟨s, 0, true, x :: xs⟩ : Storage α) with uniquely_owned := false})
      hnext hcol]
    rw [show ({(⟨s, 0, true, x :: xs⟩ : Storage α) with
        uniquely_owned := false} : Storage α).release =
      ⟨s, 0, true, x :: xs⟩ from rfl]
    rw [run_succ_none xs.length _ _
      (next_nil ⟨s, 0, true, x :: xs⟩ (show s ≠ 0 by omega))]
    rfl

theorem claim_C2_witness :
    ([0, 1] : List Nat).length < 3 ∧
      slidingRun ([0, 1] : List Nat) 3 =
        some (if ([0, 1] : List Nat).isEmpty then [] else [[0, 1]]) :=
  ⟨by decide, claim_C2 [0, 1] 3 (by decide)⟩

/-- C3 fails on the code: `Storage::clear` empties the data but does
NOT reset `window_offset`.  Running the adaptor over `[0,1,2,3,4]` with
window size 3 leaves `window_offset = 2`; reusing the same storage for
a second adaptor over `[10,11,12,13,14]` then produces a first window
that reads `[12, 10, 11]` — a stale rotation — instead of
`[10, 11, 12]` (and the later windows are garbled likewise). -/
theorem claim_C3_eval :
    reuseRun ([0, 1, 2, 3, 4] : List Nat) [10, 11, 12, 13, 14] 3 =
      some [[12, 10, 11], [10, 11, 13], [11, 13, 14]] := by
  decide

/-- C10 fails on the code for the same underlying reason as C3: after a
first run leaves `window_offset = 2`, a second adaptor over the
one-element input `[10]` mints a partial window with `data = [10]` and
stale offset `2`, and `WindowIter::next` evaluates
`&self.data[self.current_index]` with `current_index = 2 ≥ len = 1` —
an out-of-bounds index (a panic), modelled by the run returning
`none`. -/
theorem claim_C10_eval :
    reuseRun ([0, 1, 2, 3, 4] : List Nat) [10] 3 = none := by
  decide

theorem nthIndexMut_spec : ∀ (j : Nat) (data : List α) (ci k : Nat),
    ci < data.length → k + j < data.length →
    WindowIterMut.nthIndex ⟨data, ci, k⟩ j = some ((ci + j) % data.length) := by
  intro j
  induction j with
  | zero =>
    intro data ci k hci hk
    have hnext : (⟨data, ci, k⟩ : WindowIterMut α).next =
        some (some ci,
          ⟨data, if data.length - 1 ≤ ci then 0 else ci + 1, k + 1⟩) := by
      simp only [WindowIterMut.next]
      rw [if_neg (by omega), if_neg (by omega)]
    simp only [WindowIterMut.nthIndex, hnext, Nat.add_zero,
      Nat.mod_eq_of_lt hci]
  | succ j ih =>
    intro data ci k hci hk
    have hnext : (⟨data, ci, k⟩ : WindowIterMut α).next =
        some (some ci,
          ⟨data, if data.length - 1 ≤ ci then 0 else ci + 1, k + 1⟩) := by
      simp only [WindowIterMut.next]
      rw [if_neg (by omega), if_neg (by omega)]
    simp only [WindowIterMut.nthIndex, hnext]
    rw [ih data _ (k+1) (by split <;> omega) (by omega)]
    congr 1
    by_cases hw : data.length - 1 ≤ ci
    · rw [if_pos hw, Nat.zero_add,
        show ci + (j + 1) = data.length + j by omega, Nat.add_mod_left]
    · rw [if_neg hw]
      congr 1
      omega

theorem offmod_inj (len off i j : Nat) (hoff : off < len) (hi : i < len)
    (hj : j < len) (h : (off + i) % len = (off + j) % len) : i = j := by
  have h1 : i % len = j % len := Nat.ModEq.add_left_cancel' off h
  rw [Nat.mod_eq_of_lt hi, Nat.mod_eq_of_lt hj] at h1
  exact h1

theorem logical_set (data : List α) (off j : Nat) (v : α)
    (hoff : off < data.length) (hj : j < data.length) :
    (data.set ((off + j) % data.length) v).drop off ++
      (data.set ((off + j) % data.length) v).take off =
    (data.drop off ++ data.take off).set j v := by
  have hslot : (off + j) % data.length < data.length :=
    Nat.mod_lt _ (by omega)
  have hL1 : ((data.set ((off + j) % data.length) v).drop off ++
      (data.set ((off + j) % data.length) v).take off).length = data.length := by
    simp only [List.length_append, List.length_drop, List.length_take,
      List.length_set]
    omega
  have hL2 : ((data.drop off ++ data.take off).set j v).length = data.length := by
    simp only [List.length_set, List.length_append, List.length_drop,
      List.length_take]
    omega
  apply List.ext_getElem?
  intro i
  by_cases hi : i < data.length
  · have hlhs := logical_getElem? (data.set ((off + j) % data.length) v) off i
      (by rw [List.length_set]; exact hoff) (by rw [List.length_set]; exact hi)
    rw [List.length_set] at hlhs
    rw [hlhs]
    by_cases hij : i = j
    · subst hij
      rw [List.getElem?_set_eq_of_lt v hslot,
        List.getElem?_set_eq_of_lt v (by
          simp only [List.length_append, List.length_drop, List.length_take]
          omega)]
    · rw [List.getElem?_set_ne
        (by intro hcon; exact hij (offmod_inj data.length off i j hoff hi hj hcon.symm))]
      rw [List.getElem?_set_ne (by omega)]
      exact (logical_getElem? data off i hoff hi).symm
  · rw [List.getElem?_eq_none (by omega), List.getElem?_eq_none (by omega)]

theorem pushSeq_full : ∀ (es : List α) (st : Storage α),
    st.uniquely_owned = true →
    st.data.length = st.window_size →
    st.window_offset < st.window_size →
    ∃ st2, st.pushSeq es = some st2 ∧
      st2.uniquely_owned = true ∧
      st2.window_size = st.window_size ∧
      st2.data.length = st.window_size ∧
      st2.window_offset < st.window_size ∧
      st2.logical = ((st.logical ++ es).drop es.length).take st.window_size := by
  intro es
  induction es with
  | nil =>
    intro st ho hfull hoff
    refine ⟨st, rfl, ho, rfl, hfull, hoff, ?_⟩
    simp only [List.append_nil, List.length_nil, List.drop_zero]
    rw [show st.window_size = st.logical.length from by
      rw [length_logical, hfull], List.take_length]
  | cons e es ih =>
    intro st ho hfull hoff
    obtain ⟨st1, hpush, ho1, hws1, hfull1, hoff1, hlog1⟩ :=
      logical_push_full st e ho hfull hoff
    obtain ⟨st2, hps, ho2, hws2, hfull2, hoff2, hlog2⟩ :=
      ih st1 ho1 (by omega) (by omega)
    refine ⟨st2, ?_, ho2, by omega, by omega, by omega, ?_⟩
    · show Storage.pushSeq st (e :: es) = some st2
      unfold Storage.pushSeq
      rw [hpush]
      exact hps
    · rw [hlog2, hws1, hlog1]
      rw [tail_window st.logical e es (by rw [length_logical, hfull]; omega)]
      rw [List.drop_drop, Nat.add_comm 1 es.length]
      simp only [List.length_cons]

/-- C8.  A write through the `j`-th element yielded by a window's
mutable iterator lands at physical slot `k = (off + j) % L` of the
shared backing storage: it is visible in the buffer, in the window's
logical content at position `j`, in the backing vec obtained by
consuming the storage, and — after the window is dropped and the
adaptor pushes `m ≤ j` further elements — every later window still
covering slot `k` observes `v` at logical position `j - m`. -/
theorem claim_C8 (st : Storage α) (j : Nat) (v : α) (es : List α)
    (hfull : st.data.length = st.window_size)
    (hoff : st.window_offset < st.window_size)
    (ho : st.uniquely_owned = true)
    (hj : j < st.window_size) (hm : es.length ≤ j) :
    ∃ st', st.writeThrough j v = some st' ∧
      st'.data = st.data.set ((st.window_offset + j) % st.data.length) v ∧
      st'.logical = st.logical.set j v ∧
      st'.intoVec = some (st.data.set ((st.window_offset + j) % st.data.length) v) ∧
      ∃ st2, st'.pushSeq es = some st2 ∧
        st2.logical[j - es.length]? = some v := by
  have hmint : st.new_window =
      some ({st with uniquely_owned := false}, ⟨st.window_offset, st.data⟩) := by
    unfold Storage.new_window
    rw [if_pos ho]
  have hidx : (⟨st.window_offset, st.data⟩ : Window α).iter_mut.nthIndex j =
      some ((st.window_offset + j) % st.data.length) := by
    show WindowIterMut.nthIndex ⟨st.data, st.window_offset, 0⟩ j = _
    exact nthIndexMut_spec j st.data st.window_offset 0 (by omega) (by omega)
  have hw : st.writeThrough j v =
      some (Storage.release {({st with uniquely_owned := false} : Storage α) with
        data := st.data.set ((st.window_offset + j) % st.data.length) v}) := by
    unfold Storage.writeThrough
    rw [hmint]
    show (match (⟨st.window_offset, st.data⟩ : Window α).iter_mut.nthIndex j with
      | none => none
      | some k =>
        some (Storage.release
          {({st with uniquely_owned := false} : Storage α) with
            data := ({st with uniquely_owned := false} :
              Storage α).data.set k v}) : Option (Storage α)) = _
    rw [hidx]
  have hlogeq :
      (Storage.release {({st with uniquely_owned := false} : Storage α) with
        data := st.data.set ((st.window_offset + j) % st.data.length) v}).logical =
      st.logical.set j v := by
    show (st.data.set ((st.window_offset + j) % st.data.length) v).drop
        st.window_offset ++
      (st.data.set ((st.window_offset + j) % st.data.length) v).take
        st.window_offset =
      (st.data.drop st.window_offset ++ st.data.take st.window_offset).set j v
    exact logical_set st.data st.window_offset j v (by omega) (by omega)
  refine ⟨_, hw, rfl, hlogeq, rfl, ?_⟩
  obtain ⟨st2, hps, ho2, hws2, hfull2, hoff2, hlog2⟩ :=
    pushSeq_full es
      (Storage.release {({st with uniquely_owned := false} : Storage α) with
        data := st.data.set ((st.window_offset + j) % st.data.length) v})
      rfl
      (by show (st.data.set ((st.window_offset + j) % st.data.length) v).length =
            st.window_size
          rw [List.length_set]
          exact hfull)
      hoff
  refine ⟨st2, hps, ?_⟩
  rw [show (Storage.release {({st with uniquely_owned := false} : Storage α) with
      data := st.data.set ((st.window_offset + j) % st.data.length) v}).window_size =
    st.window_size from rfl] at hlog2
  rw [hlog2, hlogeq]
  have hLl : (st.logical.set j v).length = st.window_size := by
    rw [List.length_set, length_logical, hfull]
  rw [List.getElem?_take, if_pos (by omega), List.getElem?_drop,
    show es.length + (j - es.length) = j by omega,
    List.getElem?_append, if_pos (by omega),
    List.getElem?_set_eq_of_lt v (by rw [length_logical, hfull]; omega)]

theorem claim_C9_witness :
    (⟨[], false, Storage.new Nat 3⟩ : Adaptor Nat).next =
        some (none, ⟨[], true, Storage.new Nat 3⟩) ∧
      (⟨[], true, Storage.new Nat 3⟩ : Adaptor Nat).next =
        some (none, ⟨[], true, Storage.new Nat 3⟩) :=
  ⟨by decide,
    claim_C9 ⟨[], false, Storage.new Nat 3⟩ ⟨[], true, Storage.new Nat 3⟩
      (by decide)⟩

theorem claim_C8_witness :
    ([10, 20, 30] : List Nat).length = 3 ∧ (1 : Nat) < 3 ∧ (2 : Nat) < 3 ∧
      ([7] : List Nat).length ≤ 2 ∧
      (∃ st', (⟨3, 1, true, [10, 20, 30]⟩ : Storage Nat).writeThrough 2 99 =
          some st' ∧
        st'.data =
          ([10, 20, 30] : List Nat).set
            ((1 + 2) % ([10, 20, 30] : List Nat).length) 99 ∧
        st'.logical =
          (⟨3, 1, true, [10, 20, 30]⟩ : Storage Nat).logical.set 2 99 ∧
        st'.intoVec =
          some (([10, 20, 30] : List Nat).set
            ((1 + 2) % ([10, 20, 30] : List Nat).length) 99) ∧
        ∃ st2, st'.pushSeq [7] = some st2 ∧
          st2.logical[2 - ([7] : List Nat).length]? = some 99) :=
  ⟨by decide, by decide, by decide, by decide,
    claim_C8 ⟨3, 1, true, [10, 20, 30]⟩ 2 99 [7]
      (by decide) (by decide) rfl (by decide) (by decide)⟩

end Proofs

end SlidingW
